import Mathlib

/-!
Verification development for `Spot_And_Mask_Analysis_Updated.py`.

The script quantifies spatial relationships between point detections
(ImageJ ROI zips) and segmented cell masks (label TIFFs): it matches the
per-sample file triples, erodes the binarized mask at two radii with a
disk structuring element, classifies each channel-2 point as
inside / deep-inside / outside, counts distinct cell labels, and derives
per-cell ratios.

Embedding conventions:
- a mask is a 2D integer array, modelled as `List (List ℤ)` plus its
  shape `(h, w)`; lookups mirror in-bounds NumPy indexing;
- point coordinates are real-valued sub-pixel positions, modelled as `ℚ`;
- Python `round` on a coordinate is round-half-to-even (`pyRound`);
- `skimage.morphology.disk r` is the set of integer offsets `(dy, dx)`
  with `dy² + dx² ≤ r²`; `skimage.morphology.binary_erosion` calls
  `scipy.ndimage.binary_erosion` with `border_value=True`, so pixels
  outside the image count as foreground during erosion (`borderTrue`);
- the directory is modelled as the list of file names it holds, so
  `glob` becomes a filter and `os.path.exists` becomes membership;
- Python string operations (`replace`, `in`, `rsplit`, the list-based
  de-duplication) are re-implemented structurally over `List Char` so
  that concrete runs reduce inside the kernel;
- `roifile.ImagejRoi.fromfile` and the per-ROI `coordinates()` calls are
  abstracted as `Except`-valued decode results: the source decodes to a
  list of ROI records or fails, and each record yields its coordinate
  list or fails, exactly where the script's `try` block can raise.
-/

namespace SpotMask

/-! ### Rounding (Python `round`, line 183) -/

/-- Python `round` (round-half-to-even) on a rational coordinate:
at a half-integer boundary pick the even neighbour, otherwise the
nearest integer. -/
def pyRound (q : ℚ) : ℤ :=
  if Int.fract q = 1/2 then (if Even ⌊q⌋ then ⌊q⌋ else ⌊q⌋ + 1) else round q

/-! ### Mask, binarization and erosion (`erode_mask`, lines 52-56) -/

/-- A loaded mask: 2D integer array (`tifffile.imread` result). -/
abbrev Mask := List (List ℤ)

/-- 2D array lookup; only consulted at in-bounds addresses. -/
def maskGet (m : Mask) (y x : ℤ) : ℤ := (m.getD y.toNat []).getD x.toNat 0

/-- Line 53, `binary_mask = mask > 0`. -/
def binarize (m : Mask) (y x : ℤ) : Bool := decide (0 < maskGet m y x)

/-- Integer interval `[-r, r]` as a list. -/
def offsetRange (r : ℕ) : List ℤ :=
  (List.range (2*r+1)).map fun i : ℕ => (i : ℤ) - (r : ℤ)

/-- Line 54, `selem = morphology.disk(pixels)`: all integer offsets
`(dy, dx)` with `dy² + dx² ≤ r²`. -/
def diskOffsets (r : ℕ) : List (ℤ × ℤ) :=
  ((offsetRange r).product (offsetRange r)).filter fun d =>
    decide (d.1^2 + d.2^2 ≤ (r:ℤ)^2)

/-- In-bounds test of the main loop, line 186: `0 <= x < w and 0 <= y < h`. -/
def inBounds (h w : ℕ) (y x : ℤ) : Bool :=
  decide (0 ≤ x ∧ x < (w:ℤ) ∧ 0 ≤ y ∧ y < (h:ℤ))

/-- Image padding used by `skimage.morphology.binary_erosion`
(`border_value=True`): outside the `h × w` image every pixel reads as
foreground. -/
def borderTrue (bm : ℤ → ℤ → Bool) (h w : ℕ) (y x : ℤ) : Bool :=
  if inBounds h w y x then bm y x else true

/-- Lines 52-56, `erode_mask(mask, pixels)`: binarize, then binary
erosion by the disk footprint — a pixel survives iff every offset of the
disk lands on (padded) foreground. -/
def erode_mask (m : Mask) (h w : ℕ) (r : ℕ) (y x : ℤ) : Bool :=
  (diskOffsets r).all fun d => borderTrue (binarize m) h w (y + d.1) (x + d.2)

/-! ### Channel-2 classification (main loop, lines 176-197) -/

/-- The three channel-2 counters of the main loop. -/
structure C2Counts where
  inside : ℕ
  deep : ℕ
  outside : ℕ
deriving DecidableEq

/-- Lines 186-197 for one already-rounded pixel address: in bounds,
`inside`/`outside` from the standard interior and, independently,
`deep` from the deep interior; out of bounds, `outside` only. -/
def classifyAddr (estd edp : ℤ → ℤ → Bool) (h w : ℕ) (y x : ℤ) : C2Counts :=
  if inBounds h w y x then
    { inside := if estd y x then 1 else 0
      deep := if edp y x then 1 else 0
      outside := if estd y x then 0 else 1 }
  else
    { inside := 0, deep := 0, outside := 1 }

/-- Lines 182-197 for one coordinate: round each component
(`int(round(coord[i]))`), then classify the address. -/
def classifyPoint (estd edp : ℤ → ℤ → Bool) (h w : ℕ) (c : ℚ × ℚ) : C2Counts :=
  classifyAddr estd edp h w (pyRound c.1) (pyRound c.2)

/-- Pointwise sum of counters. -/
def addCounts (a b : C2Counts) : C2Counts :=
  ⟨a.inside + b.inside, a.deep + b.deep, a.outside + b.outside⟩

/-- The whole `for coord in c2_coords` loop, from zeroed counters. -/
def countC2 (estd edp : ℤ → ℤ → Bool) (h w : ℕ) (coords : List (ℚ × ℚ)) : C2Counts :=
  coords.foldl (fun acc c => addCounts acc (classifyPoint estd edp h w c)) ⟨0, 0, 0⟩

/-! ### Python string primitives, re-implemented structurally -/

/-- Worker for `str.replace` with explicit fuel (one unit per consumed
character; the pattern is non-empty at every call site). -/
def replaceFuel (pat rep : List Char) : ℕ → List Char → List Char
  | 0, s => s
  | _ + 1, [] => []
  | fuel + 1, c :: rest =>
    if pat ≠ [] ∧ pat.isPrefixOf (c :: rest) then
      rep ++ replaceFuel pat rep fuel ((c :: rest).drop pat.length)
    else
      c :: replaceFuel pat rep fuel rest

/-- Python `s.replace(pat, rep)`: replace every occurrence, scanning
left to right without overlap. -/
def pyReplace (s pat rep : String) : String :=
  ⟨replaceFuel pat.data rep.data s.data.length s.data⟩

/-- Is `pat` a contiguous sublist of `s`? -/
def listInfix (pat : List Char) : List Char → Bool
  | [] => pat.isEmpty
  | c :: rest => pat.isPrefixOf (c :: rest) || listInfix pat rest

/-- Python `pat in s` (substring containment). -/
def strContains (s pat : String) : Bool := listInfix pat.data s.data

/-- Python `s.endswith(suf)` / the `glob` suffix patterns. -/
def strEndsWith (s suf : String) : Bool := suf.data.isSuffixOf s.data

/-- Split a character list on `'_'` (always returns ≥ 1 segment). -/
def splitUnderscore : List Char → List (List Char)
  | [] => [[]]
  | c :: rest =>
    match splitUnderscore rest with
    | [] => [[]]
    | seg :: segs => if c = '_' then [] :: seg :: segs else (c :: seg) :: segs

/-- Join segments with `'_'`. -/
def joinUnderscore : List (List Char) → List Char
  | [] => []
  | [seg] => seg
  | seg :: segs => seg ++ '_' :: joinUnderscore segs

/-- Python `s.rsplit('_', 2)[0]`: the string with its last two
underscore-delimited segments removed (fewer if it has fewer). -/
def rsplit2head (s : String) : String :=
  let parts := splitUnderscore s.data
  if 3 ≤ parts.length then ⟨joinUnderscore (parts.take (parts.length - 2))⟩
  else ⟨parts.headD []⟩

/-- Lexicographic comparison of character lists by code point. -/
def lexLe : List Char → List Char → Bool
  | [], _ => true
  | _ :: _, [] => false
  | a :: as, b :: bs => if a = b then lexLe as bs else decide (a.toNat < b.toNat)

/-- Python string ordering (used by `sorted`). -/
def strLe (s t : String) : Bool := lexLe s.data t.data

/-- Insert into a `le`-sorted list. -/
def insertLe {α : Type} (le : α → α → Bool) (x : α) : List α → List α
  | [] => [x]
  | y :: ys => if le x y then x :: y :: ys else y :: insertLe le x ys

/-- Python `sorted` (insertion sort; lists here are duplicate-free). -/
def sortBy {α : Type} (le : α → α → Bool) (l : List α) : List α :=
  l.foldr (insertLe le) []

/-! ### Sample matcher (`find_file_triplets`, lines 58-113) -/

/-- Lines 78-88: the raw candidate base identifiers of a mask file
name, in priority order. Each suffix is tested by substring containment
(Python `in`) and removed everywhere it occurs (Python `replace`); the
`rsplit` fallback is always appended. -/
def rawCandidates (f : String) : List String :=
  (if strContains f "_ch1_cells_mask.tif" then [pyReplace f "_ch1_cells_mask.tif" ""] else []) ++
  (if strContains f "_cells_mask.tif" then [pyReplace f "_cells_mask.tif" ""] else []) ++
  (if strContains f "_cell_mask.tif" then [pyReplace f "_cell_mask.tif" ""] else []) ++
  [rsplit2head f]

/-- Lines 91-92: drop duplicates, keeping the first occurrence of each
element (the Python `if x not in unique_candidates` list idiom). -/
def pyDedup {α : Type} [DecidableEq α] (l : List α) : List α :=
  l.foldl (fun acc x => if x ∈ acc then acc else acc ++ [x]) []

/-- The de-duplicated candidate list actually probed for a mask file. -/
def candidatesOf (f : String) : List String := pyDedup (rawCandidates f)

/-- One matched sample (the dict appended at lines 101-106). -/
structure Triplet where
  id : String
  mask : String
  c1_roi : String
  c2_roi : String
deriving DecidableEq

/-- Line 100: both companion ROI zips exist in the directory. -/
def bothExist (dir : List String) (c : String) : Bool :=
  decide ((c ++ "_C1_ROIs.zip") ∈ dir) && decide ((c ++ "_C2_ROIs.zip") ∈ dir)

/-- Lines 94-108: try the candidates in order, and the first one whose
two companion files exist wins (`break`); `none` models the
unmatched-mask warning of lines 110-111. -/
def matchMask (dir : List String) (f : String) : Option Triplet :=
  ((candidatesOf f).find? (bothExist dir)).map fun c =>
    ⟨c, f, c ++ "_C1_ROIs.zip", c ++ "_C2_ROIs.zip"⟩

/-- Lines 66-67: a file the two `glob` patterns enumerate (`glob`
skips names starting with a dot). -/
def isMaskFile (f : String) : Bool :=
  (strEndsWith f "_cells_mask.tif" || strEndsWith f "_cell_mask.tif") &&
    !(".".data.isPrefixOf f.data)

/-- Line 70: `sorted(list(set(...)))` over the glob results. -/
def maskFiles (dir : List String) : List String :=
  sortBy strLe (pyDedup (dir.filter isMaskFile))

/-- The per-mask stage of the matcher loop over a given mask list. -/
def triplesOfMasks (dir : List String) (masks : List String) : List Triplet :=
  masks.filterMap (matchMask dir)

/-- Lines 58-113, `find_file_triplets(directory)`. -/
def find_file_triplets (dir : List String) : List Triplet :=
  triplesOfMasks dir (maskFiles dir)

/-- Candidate derivation as the specification words it: each recognized
suffix is stripped once from the end of the file name (when the name
ends with it), then the `rsplit` fallback; duplicates dropped keeping
first-seen order. Stated only to be compared with `candidatesOf`. -/
def specCandidatesOf (f : String) : List String :=
  pyDedup
    ((if strEndsWith f "_ch1_cells_mask.tif" then
        [(⟨f.data.take (f.data.length - "_ch1_cells_mask.tif".data.length)⟩ : String)] else []) ++
     (if strEndsWith f "_cells_mask.tif" then
        [(⟨f.data.take (f.data.length - "_cells_mask.tif".data.length)⟩ : String)] else []) ++
     (if strEndsWith f "_cell_mask.tif" then
        [(⟨f.data.take (f.data.length - "_cell_mask.tif".data.length)⟩ : String)] else []) ++
     [rsplit2head f])

/-! ### Coordinate extractor (`get_roi_coordinates`, lines 22-50) -/

/-- Decode result of one ROI record's `coordinates()` call (already
normalized to a list of `(y, x)` pairs — a bare pair becomes a
one-element list, line 40-41). -/
abbrev RoiDecode := Except String (List (ℚ × ℚ))

/-- The `for roi in rois` loop, line 35-45: append each record's
points to the accumulator; a raising record aborts the loop with the
coordinates gathered so far (the `except` branch does not reset
`coords`). -/
def collectRois : List RoiDecode → List (ℚ × ℚ) → List (ℚ × ℚ) × Option String
  | [], acc => (acc, none)
  | Except.ok ps :: rest, acc => collectRois rest (acc ++ ps)
  | Except.error e :: _, acc => (acc, some e)

/-- Lines 22-50, `get_roi_coordinates`: the whole `try` block. The
input abstracts `roifile.ImagejRoi.fromfile` (source decodes to a list
of records, or fails). The second output component is the error message
printed by the `except` branch (`none` when nothing was printed);
returning a pair models that no exception escapes. -/
def get_roi_coordinates (src : Except String (List RoiDecode)) :
    List (ℚ × ℚ) × Option String :=
  match src with
  | Except.error e => ([], some e)
  | Except.ok rois => collectRois rois []

/-! ### Cell count and per-cell ratios (lines 159-160 and 223-226) -/

/-- Line 159, `np.unique(mask)`: sorted distinct values. -/
def npUnique (m : Mask) : List ℤ :=
  sortBy (fun a b => decide (a ≤ b)) m.flatten.dedup

/-- Lines 159-160: number of distinct values after removing `0`. -/
def cell_count (m : Mask) : ℕ :=
  ((npUnique m).filter fun v => decide (v ≠ 0)).length

/-- One row of the results table (lines 199-207). -/
structure SampleResult where
  cell_count : ℕ
  ch1_spots : ℕ
  ch2_total : ℕ
  ch2_inside : ℕ
  ch2_deep_inside : ℕ
  ch2_outside : ℕ

/-- Lines 223-226: `spots / cells if cells > 0 else 0`. -/
def perCell (spots cells : ℕ) : ℚ :=
  if 0 < cells then (spots : ℚ) / cells else 0

/-- Line 223, column `Ch1_per_Cell`. -/
def ch1PerCell (r : SampleResult) : ℚ := perCell r.ch1_spots r.cell_count

/-- Line 224, column `Ch2_Total_per_Cell`. -/
def ch2TotalPerCell (r : SampleResult) : ℚ := perCell r.ch2_total r.cell_count

/-- Line 225, column `Ch2_Inside_per_Cell`. -/
def ch2InsidePerCell (r : SampleResult) : ℚ := perCell r.ch2_inside r.cell_count

/-- Line 226, column `Ch2_Deep_Inside_per_Cell`. -/
def ch2DeepPerCell (r : SampleResult) : ℚ := perCell r.ch2_deep_inside r.cell_count

/-! ### Helper lemmas: erosion geometry -/

lemma mem_offsetRange {r : ℕ} {d : ℤ} : d ∈ offsetRange r ↔ -(r : ℤ) ≤ d ∧ d ≤ r := by
  simp only [offsetRange, List.mem_map, List.mem_range]
  constructor
  · rintro ⟨i, hi, rfl⟩
    omega
  · rintro ⟨h1, h2⟩
    exact ⟨(d + r).toNat, by omega, by omega⟩

lemma mem_diskOffsets {r : ℕ} {d : ℤ × ℤ} :
    d ∈ diskOffsets r ↔ d.1 ^ 2 + d.2 ^ 2 ≤ (r : ℤ) ^ 2 := by
  obtain ⟨d1, d2⟩ := d
  unfold diskOffsets
  rw [List.mem_filter, List.pair_mem_product, decide_eq_true_eq, mem_offsetRange,
    mem_offsetRange]
  constructor
  · exact fun hp => hp.2
  · intro hp
    refine ⟨⟨⟨?_, ?_⟩, ?_, ?_⟩, hp⟩ <;> nlinarith [sq_nonneg d1, sq_nonneg d2]

lemma diskOffsets_subset {r1 r2 : ℕ} (h : r1 ≤ r2) {d : ℤ × ℤ}
    (hd : d ∈ diskOffsets r1) : d ∈ diskOffsets r2 := by
  rw [mem_diskOffsets] at hd ⊢
  have hc : ((r1 : ℤ)) ^ 2 ≤ ((r2 : ℤ)) ^ 2 := by
    have : (r1 : ℤ) ≤ r2 := by exact_mod_cast h
    nlinarith [Int.ofNat_nonneg r1]
  linarith

/-- Growing the erosion radius can only shrink the interior: shared by
the claims about radius monotonicity and deep/shallow nesting. -/
lemma erode_subset (m : Mask) (h w : ℕ) {r1 r2 : ℕ} (hr : r1 ≤ r2) (y x : ℤ)
    (he : erode_mask m h w r2 y x = true) : erode_mask m h w r1 y x = true := by
  rw [erode_mask, List.all_eq_true] at he ⊢
  exact fun d hd => he d (diskOffsets_subset hr hd)

/-! ### Helper lemmas: classification counters -/

lemma classifyAddr_inside_add_outside (e1 e2 : ℤ → ℤ → Bool) (h w : ℕ) (y x : ℤ) :
    (classifyAddr e1 e2 h w y x).inside + (classifyAddr e1 e2 h w y x).outside = 1 := by
  by_cases hb : inBounds h w y x <;> simp only [classifyAddr, hb, if_true, if_false] <;>
    first
      | rfl
      | (by_cases h1 : e1 y x <;> simp [h1])

lemma countC2_loop (e1 e2 : ℤ → ℤ → Bool) (h w : ℕ) (coords : List (ℚ × ℚ))
    (acc : C2Counts) :
    (coords.foldl (fun a c => addCounts a (classifyPoint e1 e2 h w c)) acc).inside +
      (coords.foldl (fun a c => addCounts a (classifyPoint e1 e2 h w c)) acc).outside =
      acc.inside + acc.outside + coords.length := by
  induction coords generalizing acc with
  | nil => simp
  | cons c cs ih =>
    simp only [List.foldl_cons, List.length_cons]
    rw [ih]
    have hK := classifyAddr_inside_add_outside e1 e2 h w (pyRound c.1) (pyRound c.2)
    simp only [addCounts, classifyPoint]
    omega

/-! ### Helper lemmas: rounding -/

lemma floor_half : ⌊(1 / 2 : ℚ)⌋ = 0 := by
  rw [Int.floor_eq_zero_iff]
  constructor <;> norm_num

lemma fract_half_int (k : ℤ) : Int.fract ((k : ℚ) + 1 / 2) = 1 / 2 := by
  rw [Int.fract_int_add]
  unfold Int.fract
  rw [floor_half]
  norm_num

lemma floor_half_int (k : ℤ) : ⌊(k : ℚ) + 1 / 2⌋ = k := by
  rw [Int.floor_int_add, floor_half, add_zero]

lemma pyRound_half (k : ℤ) : pyRound ((k : ℚ) + 1 / 2) = if Even k then k else k + 1 := by
  unfold pyRound
  rw [if_pos (fract_half_int k), floor_half_int]

lemma pyRound_near (q : ℚ) : |q - (pyRound q : ℚ)| ≤ 1 / 2 := by
  unfold pyRound
  by_cases hf : Int.fract q = 1 / 2
  · rw [if_pos hf]
    have hq : q - (⌊q⌋ : ℚ) = 1 / 2 := by
      rw [← hf]
      unfold Int.fract
      ring
    by_cases he : Even ⌊q⌋ <;> simp only [he, if_true, if_false] <;>
      rw [abs_le] <;> constructor <;> push_cast <;> linarith
  · rw [if_neg hf]
    exact abs_sub_round q

/-! ### Helper lemmas: first-seen de-duplication -/

/-- Proof-side recursion equivalent to the `pyDedup` fold. -/
def dedupFrom {α : Type} [DecidableEq α] (seen : List α) : List α → List α
  | [] => []
  | x :: xs => if x ∈ seen then dedupFrom seen xs else x :: dedupFrom (seen ++ [x]) xs

lemma foldl_dedup_eq {α : Type} [DecidableEq α] (l acc : List α) :
    l.foldl (fun a x => if x ∈ a then a else a ++ [x]) acc = acc ++ dedupFrom acc l := by
  induction l generalizing acc with
  | nil => simp [dedupFrom]
  | cons x xs ih =>
    simp only [List.foldl_cons, dedupFrom]
    by_cases hx : x ∈ acc
    · rw [if_pos hx, if_pos hx, ih]
    · rw [if_neg hx, if_neg hx, ih]
      simp

lemma mem_dedupFrom {α : Type} [DecidableEq α] {y : α} {l : List α} :
    ∀ {seen : List α}, y ∈ dedupFrom seen l ↔ y ∈ l ∧ y ∉ seen := by
  induction l with
  | nil => simp [dedupFrom]
  | cons x xs ih =>
    intro seen
    simp only [dedupFrom]
    by_cases hx : x ∈ seen
    · rw [if_pos hx, ih]
      constructor
      · exact fun ⟨h1, h2⟩ => ⟨List.mem_cons_of_mem x h1, h2⟩
      · rintro ⟨h1, h2⟩
        rcases List.mem_cons.mp h1 with rfl | h1
        · exact absurd hx h2
        · exact ⟨h1, h2⟩
    · rw [if_neg hx]
      simp only [List.mem_cons, ih, List.mem_append, List.mem_singleton]
      constructor
      · rintro (rfl | ⟨h1, h2⟩)
        · exact ⟨Or.inl rfl, hx⟩
        · exact ⟨Or.inr h1, fun hs => h2 (Or.inl hs)⟩
      · rintro ⟨rfl | h1, h2⟩
        · exact Or.inl rfl
        · by_cases hyx : y = x
          · exact Or.inl hyx
          · exact Or.inr ⟨h1, by simp [h2, hyx]⟩

lemma nodup_dedupFrom {α : Type} [DecidableEq α] (l : List α) :
    ∀ seen : List α, (dedupFrom seen l).Nodup := by
  induction l with
  | nil => intro seen; simp [dedupFrom]
  | cons x xs ih =>
    intro seen
    simp only [dedupFrom]
    by_cases hx : x ∈ seen
    · rw [if_pos hx]; exact ih seen
    · rw [if_neg hx]
      refine List.nodup_cons.mpr ⟨?_, ih (seen ++ [x])⟩
      intro hmem
      exact (mem_dedupFrom.mp hmem).2 (by simp)

lemma sublist_dedupFrom {α : Type} [DecidableEq α] (l : List α) :
    ∀ seen : List α, List.Sublist (dedupFrom seen l) l := by
  induction l with
  | nil => intro seen; simp [dedupFrom]
  | cons x xs ih =>
    intro seen
    simp only [dedupFrom]
    by_cases hx : x ∈ seen
    · rw [if_pos hx]
      exact (ih seen).trans (List.sublist_cons_self x xs)
    · rw [if_neg hx]
      exact (ih (seen ++ [x])).cons₂ x

lemma pyDedup_eq {α : Type} [DecidableEq α] (l : List α) : pyDedup l = dedupFrom [] l := by
  unfold pyDedup
  rw [foldl_dedup_eq]
  simp

lemma pyDedup_nodup {α : Type} [DecidableEq α] (l : List α) : (pyDedup l).Nodup := by
  rw [pyDedup_eq]; exact nodup_dedupFrom l []

lemma pyDedup_sublist {α : Type} [DecidableEq α] (l : List α) :
    List.Sublist (pyDedup l) l := by
  rw [pyDedup_eq]; exact sublist_dedupFrom l []

lemma mem_pyDedup {α : Type} [DecidableEq α] {y : α} {l : List α} :
    y ∈ pyDedup l ↔ y ∈ l := by
  rw [pyDedup_eq, mem_dedupFrom]
  simp

/-! ### Helper lemmas: sorting permutes -/

lemma insertLe_perm {α : Type} (le : α → α → Bool) (x : α) (l : List α) :
    List.Perm (insertLe le x l) (x :: l) := by
  induction l with
  | nil => rfl
  | cons y ys ih =>
    simp only [insertLe]
    by_cases hle : le x y
    · rw [if_pos hle]
    · rw [if_neg hle]
      exact (ih.cons y).trans (List.Perm.swap x y ys)

lemma sortBy_perm {α : Type} (le : α → α → Bool) (l : List α) :
    List.Perm (sortBy le l) l := by
  induction l with
  | nil => rfl
  | cons x xs ih =>
    exact (insertLe_perm le x (sortBy le xs)).trans (ih.cons x)

/-! ### Helper lemmas: first match in a candidate list -/

lemma find?_first {α : Type} (p : α → Bool) (l1 : List α) (c : α) (l2 : List α)
    (h1 : ∀ c' ∈ l1, p c' = false) (hc : p c = true) :
    List.find? p (l1 ++ c :: l2) = some c := by
  induction l1 with
  | nil => simp [List.find?_cons_of_pos _ hc]
  | cons a as ih =>
    rw [List.cons_append, List.find?_cons_of_neg]
    · exact ih fun c' hmem => h1 c' (List.mem_cons_of_mem a hmem)
    · simp [h1 a (List.mem_cons_self a as)]

/-! ### Helper lemmas: the extractor loop -/

lemma collectRois_ok (pss : List (List (ℚ × ℚ))) :
    ∀ acc, collectRois (pss.map Except.ok) acc = (acc ++ pss.flatten, none) := by
  induction pss with
  | nil => intro acc; simp [collectRois]
  | cons ps rest ih =>
    intro acc
    simp only [List.map_cons, collectRois, ih, List.flatten_cons, List.append_assoc]

lemma collectRois_err (pss : List (List (ℚ × ℚ))) (e : String) (rest : List RoiDecode) :
    ∀ acc, collectRois (pss.map Except.ok ++ Except.error e :: rest) acc =
      (acc ++ pss.flatten, some e) := by
  induction pss with
  | nil => intro acc; simp [collectRois]
  | cons ps pss ih =>
    intro acc
    rw [List.map_cons, List.cons_append]
    rw [show collectRois
        (Except.ok ps :: (List.map Except.ok pss ++ Except.error e :: rest)) acc =
        collectRois (List.map Except.ok pss ++ Except.error e :: rest) (acc ++ ps) from rfl]
    rw [ih, List.flatten_cons, List.append_assoc]

/-! ### Small rounding evaluations used by witnesses -/

lemma pyRound_zero : pyRound (0 : ℚ) = 0 := by
  unfold pyRound
  rw [if_neg, round_zero]
  rw [Int.fract_zero]
  norm_num

lemma pyRound_one_half : pyRound ((1 : ℚ) / 2) = 0 := by
  rw [show (1 : ℚ) / 2 = ((0 : ℤ) : ℚ) + 1 / 2 by norm_num, pyRound_half]
  simp

/-! ### Claim C1 -/

/-- Claim C1: every channel-2 point is counted in exactly one of the
`inside`/`outside` counters; a point whose rounded address lies outside
`[0, h) × [0, w)` goes to `outside` only, never to `inside` or `deep`;
consequently, for every list of channel-2 points,
`inside + outside` equals the total point count. -/
theorem claim_C1 (e1 e2 : ℤ → ℤ → Bool) (h w : ℕ) :
    (∀ coords : List (ℚ × ℚ),
      (countC2 e1 e2 h w coords).inside + (countC2 e1 e2 h w coords).outside =
        coords.length) ∧
    (∀ y x : ℤ,
      (classifyAddr e1 e2 h w y x).inside + (classifyAddr e1 e2 h w y x).outside = 1) ∧
    (∀ y x : ℤ, inBounds h w y x = false →
      classifyAddr e1 e2 h w y x = ⟨0, 0, 1⟩) := by
  refine ⟨fun coords => ?_, classifyAddr_inside_add_outside e1 e2 h w, fun y x hb => ?_⟩
  · have hl := countC2_loop e1 e2 h w coords ⟨0, 0, 0⟩
    simpa [countC2] using hl
  · simp [classifyAddr, hb]

/-- Witness for C1: a concrete out-of-bounds address lands in the
outside counter only. -/
theorem claim_C1_witness :
    classifyAddr (fun _ _ => true) (fun _ _ => true) 2 2 (-1) 0 = ⟨0, 0, 1⟩ :=
  (claim_C1 (fun _ _ => true) (fun _ _ => true) 2 2).2.2 (-1) 0 (by decide)

/-! ### Claim C2 -/

/-- Claim C2: for every mask and radii `r1 < r2`, every pixel of the
interior mask eroded at radius `r2` is also set in the interior mask
eroded at radius `r1` from the same source mask. -/
theorem claim_C2 (m : Mask) (h w : ℕ) (r1 r2 : ℕ) (hr : r1 < r2) (y x : ℤ)
    (hd : erode_mask m h w r2 y x = true) : erode_mask m h w r1 y x = true :=
  erode_subset m h w (le_of_lt hr) y x hd

/-- Witness for C2 on a one-pixel mask at radii 0 < 1. -/
theorem claim_C2_witness : erode_mask [[1]] 1 1 0 0 0 = true :=
  claim_C2 [[1]] 1 1 0 1 (by decide) 0 0 (by decide)

/-! ### Claim C3 -/

/-- Counterexample to C3 as stated: the code derives candidates with
Python `replace` (remove every occurrence, tested by substring
containment), not by stripping a suffix. For the mask name
`a_ch1_cells_mask.tif_b_cell_mask.tif` the matcher commits to the
identifier `a_b_cell_mask.tif`, which no suffix-stripping derivation
(`specCandidatesOf`, the claim's wording) produces. -/
theorem claim_C3_counterexample :
    find_file_triplets
        ["a_ch1_cells_mask.tif_b_cell_mask.tif",
         "a_b_cell_mask.tif_C1_ROIs.zip", "a_b_cell_mask.tif_C2_ROIs.zip"] =
      [⟨"a_b_cell_mask.tif", "a_ch1_cells_mask.tif_b_cell_mask.tif",
        "a_b_cell_mask.tif_C1_ROIs.zip", "a_b_cell_mask.tif_C2_ROIs.zip"⟩] ∧
    specCandidatesOf "a_ch1_cells_mask.tif_b_cell_mask.tif" =
      ["a_ch1_cells_mask.tif_b"] ∧
    "a_b_cell_mask.tif" ∉ specCandidatesOf "a_ch1_cells_mask.tif_b_cell_mask.tif" := by
  refine ⟨by decide, by decide, by decide⟩

/-- Claim C3 (amended: each recognized pattern is tested by substring
containment and removed at every occurrence, rather than stripped once
from the end): candidates are generated in the fixed priority order with
duplicates removed preserving first-seen order; the first candidate
whose two companion files exist wins and no later candidate is tested;
the `sample1` scenario yields exactly the triplet with identifier
`sample1`. -/
theorem claim_C3_amended :
    (∀ f : String, (candidatesOf f).Nodup ∧
      List.Sublist (candidatesOf f) (rawCandidates f) ∧
      (∀ c, c ∈ candidatesOf f ↔ c ∈ rawCandidates f)) ∧
    (∀ (dir : List String) (f : String) (l1 : List String) (c : String) (l2 : List String),
      candidatesOf f = l1 ++ c :: l2 →
      (∀ c' ∈ l1, bothExist dir c' = false) →
      bothExist dir c = true →
      matchMask dir f = some ⟨c, f, c ++ "_C1_ROIs.zip", c ++ "_C2_ROIs.zip"⟩) ∧
    candidatesOf "sample1_ch1_cells_mask.tif" = ["sample1", "sample1_ch1"] ∧
    find_file_triplets ["sample1_ch1_cells_mask.tif",
        "sample1_C1_ROIs.zip", "sample1_C2_ROIs.zip"] =
      [⟨"sample1", "sample1_ch1_cells_mask.tif",
        "sample1_C1_ROIs.zip", "sample1_C2_ROIs.zip"⟩] := by
  refine ⟨fun f => ⟨pyDedup_nodup _, pyDedup_sublist _, fun c => mem_pyDedup⟩,
    fun dir f l1 c l2 hc h1 hc2 => ?_, by decide, by decide⟩
  unfold matchMask
  rw [hc, find?_first (bothExist dir) l1 c l2 h1 hc2]
  rfl

/-- Witness for C3 (amended), committing to the first matching
candidate of the `sample1` scenario. -/
theorem claim_C3_witness :
    matchMask ["sample1_ch1_cells_mask.tif", "sample1_C1_ROIs.zip", "sample1_C2_ROIs.zip"]
        "sample1_ch1_cells_mask.tif" =
      some ⟨"sample1", "sample1_ch1_cells_mask.tif",
        "sample1" ++ "_C1_ROIs.zip", "sample1" ++ "_C2_ROIs.zip"⟩ :=
  claim_C3_amended.2.1
    ["sample1_ch1_cells_mask.tif", "sample1_C1_ROIs.zip", "sample1_C2_ROIs.zip"]
    "sample1_ch1_cells_mask.tif" [] "sample1" ["sample1_ch1"]
    (by decide) (by simp) (by decide)

/-! ### Claim C4 -/

/-- Counterexample to C4 as stated: a source that decodes to a record
list whose first record yields one point and whose second record fails.
The extractor reports the failure but returns the point gathered before
the failure — not an empty sequence (the `except` branch does not reset
`coords`). -/
theorem claim_C4_counterexample :
    (get_roi_coordinates
        (Except.ok [Except.ok [((1 : ℚ), (2 : ℚ))], Except.error "bad"])).2 =
      some "bad" ∧
    (get_roi_coordinates
        (Except.ok [Except.ok [((1 : ℚ), (2 : ℚ))], Except.error "bad"])).1 ≠ [] := by
  refine ⟨by decide, by decide⟩

/-- Claim C4 (amended: on a decode failure the extractor reports the
failure and returns, without propagating anything, the coordinates
accumulated before the failure — the empty sequence exactly when the
source itself cannot be read; with no failure it returns all coordinates
and reports nothing; being a total function, no exception escapes). -/
theorem claim_C4_amended :
    (∀ e : String, get_roi_coordinates (Except.error e) = ([], some e)) ∧
    (∀ pss : List (List (ℚ × ℚ)),
      get_roi_coordinates (Except.ok (pss.map Except.ok)) = (pss.flatten, none)) ∧
    (∀ (pss : List (List (ℚ × ℚ))) (e : String) (rest : List RoiDecode),
      get_roi_coordinates (Except.ok (pss.map Except.ok ++ Except.error e :: rest)) =
        (pss.flatten, some e)) := by
  refine ⟨fun e => rfl, fun pss => ?_, fun pss e rest => ?_⟩
  · show collectRois (pss.map Except.ok) [] = (pss.flatten, none)
    rw [collectRois_ok]
    simp
  · show collectRois (pss.map Except.ok ++ Except.error e :: rest) [] = (pss.flatten, some e)
    rw [collectRois_err]
    simp

/-! ### Claim C5 -/

/-- Claim C5: with deep radius greater than shallow radius, an in-bounds
point counted as deep-inside is also counted as inside, and no point is
counted in both `outside` and `deep`. -/
theorem claim_C5 (m : Mask) (h w : ℕ) (r1 r2 : ℕ) (hr : r1 < r2) (y x : ℤ) :
    (inBounds h w y x = true →
      (classifyAddr (erode_mask m h w r1) (erode_mask m h w r2) h w y x).deep = 1 →
      (classifyAddr (erode_mask m h w r1) (erode_mask m h w r2) h w y x).inside = 1) ∧
    ¬((classifyAddr (erode_mask m h w r1) (erode_mask m h w r2) h w y x).outside = 1 ∧
      (classifyAddr (erode_mask m h w r1) (erode_mask m h w r2) h w y x).deep = 1) := by
  constructor
  · intro hb hdeep
    simp only [classifyAddr, hb, if_true] at hdeep ⊢
    by_cases h2 : erode_mask m h w r2 y x
    · simp [erode_subset m h w (le_of_lt hr) y x h2]
    · simp [h2] at hdeep
  · rintro ⟨hout, hdeep⟩
    by_cases hb : inBounds h w y x
    · simp only [classifyAddr, hb, if_true] at hout hdeep
      by_cases h2 : erode_mask m h w r2 y x
      · simp [erode_subset m h w (le_of_lt hr) y x h2] at hout
      · simp [h2] at hdeep
    · simp only [classifyAddr, hb, if_false] at hdeep
      simp at hdeep

/-- Witness for C5 at radii 0 < 1 on a one-pixel mask. -/
theorem claim_C5_witness :
    (classifyAddr (erode_mask [[1]] 1 1 0) (erode_mask [[1]] 1 1 1) 1 1 0 0).inside = 1 :=
  (claim_C5 [[1]] 1 1 0 1 (by decide) 0 0).1 (by decide) (by decide)

/-! ### Claim C6 -/

/-- Counterexample to C6 as stated: binarization is `mask > 0`, not
`mask ≠ 0`; at the in-bounds pixel of the mask `[[-1]]` the value is
nonzero, yet the radius-0 interior mask is false there. -/
theorem claim_C6_counterexample :
    inBounds 1 1 0 0 = true ∧ maskGet [[-1]] 0 0 ≠ 0 ∧
    erode_mask [[-1]] 1 1 0 0 0 = false := by
  refine ⟨by decide, by decide, by decide⟩

/-- Claim C6 (amended: the interior mask at radius 0 equals, pixel for
pixel, the binarized mask — true exactly where the mask value is
strictly positive, not merely nonzero). -/
theorem claim_C6_amended (m : Mask) (h w : ℕ) (y x : ℤ)
    (hb : inBounds h w y x = true) :
    erode_mask m h w 0 y x = binarize m y x ∧
    (erode_mask m h w 0 y x = true ↔ 0 < maskGet m y x) := by
  have hd : diskOffsets 0 = [(0, 0)] := by decide
  have he : erode_mask m h w 0 y x = binarize m y x := by
    simp [erode_mask, hd, borderTrue, hb]
  exact ⟨he, by rw [he]; simp [binarize]⟩

/-- Witness for C6 (amended) on a positive one-pixel mask. -/
theorem claim_C6_witness :
    erode_mask [[2]] 1 1 0 0 0 = binarize [[2]] 0 0 :=
  (claim_C6_amended [[2]] 1 1 0 0 (by decide)).1

/-! ### Claim C7 -/

/-- Claim C7: every triplet the matcher returns references two companion
files that are present in the directory; a mask that matches no
candidate contributes no triplet and does not disturb the processing of
the other masks. -/
theorem claim_C7 (dir : List String) :
    (∀ t ∈ find_file_triplets dir, t.c1_roi ∈ dir ∧ t.c2_roi ∈ dir) ∧
    (∀ (masks1 : List String) (f : String) (masks2 : List String),
      matchMask dir f = none →
      triplesOfMasks dir (masks1 ++ f :: masks2) = triplesOfMasks dir (masks1 ++ masks2)) := by
  constructor
  · intro t ht
    obtain ⟨f, hf, hmf⟩ := List.mem_filterMap.mp ht
    unfold matchMask at hmf
    obtain ⟨c, hfind, hc⟩ := Option.map_eq_some'.mp hmf
    have hboth := List.find?_some hfind
    rw [bothExist, Bool.and_eq_true, decide_eq_true_eq, decide_eq_true_eq] at hboth
    subst hc
    exact ⟨hboth.1, hboth.2⟩
  · intro m1 f m2 hnone
    unfold triplesOfMasks
    simp [List.filterMap_append, List.filterMap_cons, hnone]

/-- Witness for C7: an unmatched mask in the middle of the list drops
out without affecting the rest. -/
theorem claim_C7_witness :
    triplesOfMasks ["a_cells_mask.tif", "a_C1_ROIs.zip", "a_C2_ROIs.zip"]
        (["a_cells_mask.tif"] ++ "zz_cells_mask.tif" :: []) =
      triplesOfMasks ["a_cells_mask.tif", "a_C1_ROIs.zip", "a_C2_ROIs.zip"]
        (["a_cells_mask.tif"] ++ []) :=
  (claim_C7 ["a_cells_mask.tif", "a_C1_ROIs.zip", "a_C2_ROIs.zip"]).2
    ["a_cells_mask.tif"] "zz_cells_mask.tif" [] (by decide)

/-! ### Claim C8 -/

/-- Claim C8: both coordinate components are rounded with the one
function `pyRound`, so the classification of a point depends only on the
rounded address; `pyRound` is round-half-to-even — a half-integer
resolves deterministically to its even neighbour — and it always picks a
nearest integer. -/
theorem claim_C8 :
    (∀ (e1 e2 : ℤ → ℤ → Bool) (h w : ℕ) (c c' : ℚ × ℚ),
      pyRound c.1 = pyRound c'.1 → pyRound c.2 = pyRound c'.2 →
      classifyPoint e1 e2 h w c = classifyPoint e1 e2 h w c') ∧
    (∀ k : ℤ, pyRound ((k : ℚ) + 1 / 2) = if Even k then k else k + 1) ∧
    (∀ q : ℚ, |q - (pyRound q : ℚ)| ≤ 1 / 2) := by
  refine ⟨fun e1 e2 h w c c' h1 h2 => ?_, pyRound_half, pyRound_near⟩
  show classifyAddr e1 e2 h w (pyRound c.1) (pyRound c.2) =
    classifyAddr e1 e2 h w (pyRound c'.1) (pyRound c'.2)
  rw [h1, h2]

/-- Witness for C8: the boundary coordinate `1/2` and the coordinate `0`
round to the same pixel, hence classify identically. -/
theorem claim_C8_witness :
    classifyPoint (fun _ _ => true) (fun _ _ => true) 1 1 ((1 : ℚ) / 2, 0) =
      classifyPoint (fun _ _ => true) (fun _ _ => true) 1 1 (0, 0) :=
  claim_C8.1 (fun _ _ => true) (fun _ _ => true) 1 1 ((1 : ℚ) / 2, 0) (0, 0)
    (by rw [pyRound_one_half, pyRound_zero]) rfl

/-! ### Claim C9 -/

/-- Claim C9: with cell count 0 every per-cell ratio is 0 (no division
fault — the ratios are total); with positive cell count each ratio is
the corresponding count divided by the cell count. -/
theorem claim_C9 (r : SampleResult) :
    (r.cell_count = 0 →
      ch1PerCell r = 0 ∧ ch2TotalPerCell r = 0 ∧
      ch2InsidePerCell r = 0 ∧ ch2DeepPerCell r = 0) ∧
    (0 < r.cell_count →
      ch1PerCell r = (r.ch1_spots : ℚ) / (r.cell_count : ℚ) ∧
      ch2TotalPerCell r = (r.ch2_total : ℚ) / (r.cell_count : ℚ) ∧
      ch2InsidePerCell r = (r.ch2_inside : ℚ) / (r.cell_count : ℚ) ∧
      ch2DeepPerCell r = (r.ch2_deep_inside : ℚ) / (r.cell_count : ℚ)) := by
  constructor
  · intro h0
    have hn : ¬ 0 < r.cell_count := by omega
    simp [ch1PerCell, ch2TotalPerCell, ch2InsidePerCell, ch2DeepPerCell, perCell, hn]
  · intro hpos
    simp [ch1PerCell, ch2TotalPerCell, ch2InsidePerCell, ch2DeepPerCell, perCell, hpos]

/-- Witness for C9 at cell counts 0 and 2. -/
theorem claim_C9_witness :
    ch1PerCell ⟨0, 1, 2, 3, 4, 5⟩ = 0 ∧
    ch1PerCell ⟨2, 5, 0, 0, 0, 0⟩ = ((5 : ℕ) : ℚ) / ((2 : ℕ) : ℚ) :=
  ⟨((claim_C9 ⟨0, 1, 2, 3, 4, 5⟩).1 rfl).1,
   ((claim_C9 ⟨2, 5, 0, 0, 0, 0⟩).2 (by decide)).1⟩

/-! ### Claim C10 -/

/-- Claim C10: the reported cell count is the number of distinct nonzero
values of the mask array — 0 is never counted, and the count is blind to
multiplicity and magnitude of the labels. -/
theorem claim_C10 (m : Mask) :
    cell_count m = (m.flatten.toFinset.erase 0).card := by
  have hperm : List.Perm (npUnique m) m.flatten.dedup := sortBy_perm _ _
  have h2 : cell_count m =
      (List.filter (fun v => decide (v ≠ 0)) m.flatten.dedup).length := by
    unfold cell_count
    exact (hperm.filter _).length_eq
  have hn1 : (List.filter (fun v => decide (v ≠ 0)) m.flatten.dedup).Nodup :=
    List.Nodup.filter _ (List.nodup_dedup _)
  have hn2 : (List.filter (fun v => decide (v ≠ 0)) m.flatten).dedup.Nodup :=
    List.nodup_dedup _
  have h3 := (List.perm_ext_iff_of_nodup hn1 hn2).mpr (fun a => by
    simp only [List.mem_filter, List.mem_dedup])
  have h4 : Finset.filter (fun x => decide (x ≠ 0) = true) m.flatten.toFinset =
      Finset.filter (fun x => x ≠ 0) m.flatten.toFinset :=
    Finset.filter_congr (fun x _ => by simp)
  rw [h2, h3.length_eq, ← List.card_toFinset, List.toFinset_filter, h4,
    Finset.filter_ne']

end SpotMask
